import Mathlib

/-!
Verification of the suno-radio-bot playback-ordering core.

Shallow embedding of the per-guild queue scheduler implemented in
`src/cogs/music.py` and `src/cogs/shuffle_displacing_first.py`, together
with theorems checking the natural-language specification against it.

Modelling conventions:
* Python dicts of per-guild collections become functions `Nat → _` on a
  guild-id argument inside a `CogState` record; note that `current_song`
  and `song_start_time` are plain attributes on the cog in the source
  (shared by all guilds), so they are modelled as single fields.
* Track dictionaries become the `Track` structure holding exactly the
  fields the verified operations read: the `duration` value (numeric or
  missing; the `MM:SS` string forms accepted by `_duration_to_seconds`
  are not modelled, only the numeric/missing ones), `requester_id`
  (missing for some tracks), and the `_autofill` tag (a missing key reads
  as false).
* Machine integers are `Int`/`Nat`; Python `max(0, a - b)` on naturals is
  truncated subtraction.
* The random generator consumed by the displacing shuffle is modelled as
  an oracle: the drawn indices are explicit arguments constrained by the
  ranges `randrange` is called with.
-/

namespace SunoRadio

/-- A queued track, with the fields read by the verified operations
(`duration`, `requester_id`, `_autofill` in the source dictionaries). -/
structure Track where
  duration : Option Int
  requesterId : Option Int
  isAutofill : Bool
deriving DecidableEq, Repr

/-- `_duration_to_seconds` on the numeric/missing duration forms:
`None → None`, a number `d → max(0, int(d))`. -/
def durationToSeconds : Option Int → Option Nat
  | none => none
  | some d => some d.toNat

/-- An entry of the per-guild now-playing log `_np_track[gid]`. -/
structure NpEntry where
  messageId : Nat
  channelId : Nat
  songIndex : Nat
  isAutofill : Bool
deriving DecidableEq, Repr

/-! ## RateLimiter: `_enforce_queue_add_limit` -/

/-- The special-cased notice text used when the cap is exactly 3. -/
def specialCapNotice : String :=
  "You can only enter 3 songs at a time into the queue."

/-- The templated notice text used for any other cap. -/
def templatedCapNotice (cap : Int) : String :=
  "You can only enter up to **" ++ toString cap ++ "** songs at a time into the queue."

/-- `_enforce_queue_add_limit(gid, intended_count, bypass)`: admission
decision returning the allowed count and an optional notice.
`limitOn` is `_limit_is_on(gid)` and `cap` is `_limit_max(gid)`. -/
def enforceQueueAddLimit (limitOn : Bool) (cap : Int) (intended : Int)
    (bypass : Bool) : Int × Option String :=
  if bypass || !limitOn then (intended, none)
  else if intended ≤ cap then (intended, none)
  else if cap = 3 then (cap, some specialCapNotice)
  else (cap, some (templatedCapNotice cap))

/-! ## Per-user slots: `_count_user_queued` and `_user_slots_remaining` -/

/-- `_count_user_queued(gid, user_id, include_filler)`: the loop skips
autofill-tagged tracks unless `include_filler`, and counts tracks whose
`requester_id` equals `user_id`. -/
def countUserQueued (q : List Track) (userId : Int) (includeFiller : Bool) : Nat :=
  match q with
  | [] => 0
  | t :: rest =>
    if !includeFiller && t.isAutofill then countUserQueued rest userId includeFiller
    else if t.requesterId = some userId then
      countUserQueued rest userId includeFiller + 1
    else countUserQueued rest userId includeFiller

/-- `_user_slots_remaining(gid, user_id)`:
`max(0, per_user_max - count_user_queued(gid, user_id, include_filler=False))`. -/
def userSlotsRemaining (q : List Track) (userId : Int) (perUserMax : Int) : Int :=
  max 0 (perUserMax - countUserQueued q userId false)

/-! ## QueueStore: removal by position and autofill purge -/

/-- `remove_from_queue` after the integer parse: on an empty queue or an
out-of-range 1-based position it reports a failure (`none`) and leaves
the queue untouched; otherwise it pops the song at `position - 1`. -/
def removeFromQueue (q : List Track) (position : Int) : List Track × Option Track :=
  if q.isEmpty then (q, none)
  else if position < 1 ∨ (q.length : Int) < position then (q, none)
  else
    let idx := (position - 1).toNat
    (q.eraseIdx idx, q[idx]?)

/-- The kept list built by `_clear_autofill_from_queue`:
`[t for t in dq if not t.get("_autofill")]`. -/
def clearAutofillKept (q : List Track) : List Track :=
  q.filter (fun t => !t.isAutofill)

/-- `_purge_filler_from_queue` (inside `skip`): walks the queue keeping
non-autofill items and counting removed autofill items; returns the new
queue contents and the removed count. -/
def purgeFillerFromQueue (q : List Track) : List Track × Nat :=
  match q with
  | [] => ([], 0)
  | t :: rest =>
    let p := purgeFillerFromQueue rest
    if t.isAutofill then (p.1, p.2 + 1) else (t :: p.1, p.2)

/-! ## NowPlayingTracker: `_cleanup_np_autofill` -/

/-- The keep-loop of `_cleanup_np_autofill`: an entry is dropped when it
is autofill-tagged and `current_idx - song_index >= retention`; all other
entries are appended to the kept list in order. -/
def cleanupNpKeep (retention : Int) (curIdx : Nat) : List NpEntry → List NpEntry
  | [] => []
  | e :: rest =>
    if e.isAutofill && decide ((curIdx : Int) - (e.songIndex : Int) ≥ retention) then
      cleanupNpKeep retention curIdx rest
    else e :: cleanupNpKeep retention curIdx rest

/-- `_cleanup_np_autofill(gid)` effect on the log: returns the entries
unchanged when the retention window is non-positive, otherwise the kept
list of the pruning loop. -/
def cleanupNpAutofill (retention : Int) (curIdx : Nat)
    (entries : List NpEntry) : List NpEntry :=
  if retention ≤ 0 then entries
  else cleanupNpKeep retention curIdx entries

/-- Modelled from the spec: pruning as claim C3 words it, deleting exactly
the autofill entries *more than* `retention` songs behind the current
index. Used only to compare against the source behaviour. -/
def cleanupNpClaimed (retention : Int) (curIdx : Nat)
    (entries : List NpEntry) : List NpEntry :=
  entries.filter (fun e => !(e.isAutofill && decide ((curIdx : Int) - (e.songIndex : Int) > retention)))

/-! ## ETAEstimator: `_estimate_eta_seconds` -/

/-- Accumulator of the estimate loop: the running `eta` sum and the
`had_unknown` / `had_known` flags. -/
structure EtaAcc where
  eta : Nat
  hadUnknown : Bool
  hadKnown : Bool
deriving DecidableEq, Repr

/-- One iteration of the loop over the tracks ahead: an unknown duration
sets `had_unknown`, a known one is added to `eta` and sets `had_known`. -/
def etaStep (a : EtaAcc) (t : Track) : EtaAcc :=
  match durationToSeconds t.duration with
  | none => { a with hadUnknown := true }
  | some td => { a with eta := a.eta + td, hadKnown := true }

/-- `_estimate_eta_seconds(gid, position)`. The base accumulator comes
from the currently playing track (counted only when both `current_song`
and `song_start_time` are set): remaining time `max(0, dur - elapsed)`
with `elapsed = int(max(0, now - start))`, or the unknown flag. The loop
then folds over the queued tracks strictly ahead of `position` (the
slice `list(q)[:max(0, position - 1)]`). The result is `(None, True)`
when nothing known was seen but something unknown was, otherwise the sum
with the unknown flag. -/
def estimateEtaSeconds (cur : Option Track) (startTime : Option Nat)
    (q : List Track) (now : Nat) (position : Nat) : Option Nat × Bool :=
  let a0 : EtaAcc :=
    match cur, startTime with
    | some c, some st =>
      match durationToSeconds c.duration with
      | none => ⟨0, true, false⟩
      | some cd => ⟨cd - (now - st), false, true⟩
    | _, _ => ⟨0, false, false⟩
  let af := (q.take (position - 1)).foldl etaStep a0
  if !af.hadKnown && af.hadUnknown then (none, true)
  else (some af.eta, af.hadUnknown)

/-- The tracks whose durations the estimate inspects: the current track
(when it is counted, i.e. both `current_song` and `song_start_time` are
set) followed by the queued tracks strictly ahead of `position`. -/
def etaRelevantTracks (cur : Option Track) (startTime : Option Nat)
    (q : List Track) (position : Nat) : List Track :=
  (match cur, startTime with
   | some c, some _ => [c]
   | _, _ => []) ++ q.take (position - 1)

/-- Whether a track's duration is unknown to the estimator. -/
def trackUnknown (t : Track) : Bool :=
  (durationToSeconds t.duration).isNone

/-- Sum of the known durations of a list of tracks (unknown ones
contribute nothing). -/
def knownDurSum (ts : List Track) : Nat :=
  (ts.map (fun t => (durationToSeconds t.duration).getD 0)).sum

/-- The total the estimate reports when it is not unknown: the current
track's remaining time (when counted and known) plus the known durations
of the tracks ahead. -/
def etaKnownTotal (cur : Option Track) (startTime : Option Nat)
    (q : List Track) (now : Nat) (position : Nat) : Nat :=
  (match cur, startTime with
   | some c, some st =>
     match durationToSeconds c.duration with
     | some cd => cd - (now - st)
     | none => 0
   | _, _ => 0) + knownDurSum (q.take (position - 1))

/-! ## The cog's mutable state and the scheduler operations

`MusicCog.__init__` keeps per-guild dictionaries (`queues`, `_song_index`,
`_np_track`, `auto_play_tasks`), modelled as functions of the guild id,
and two plain attributes `current_song` / `song_start_time` shared by all
guilds, modelled as single fields. -/
structure CogState where
  queues : Nat → List Track
  currentSong : Option Track
  songStartTime : Option Nat
  songIndex : Nat → Nat
  npTrack : Nat → List NpEntry
  autoPlayTasks : Nat → Option Unit
  retention : Int

/-- `_cancel_autofill_task(gid)`: cancels a pending task and stores
`None` in `auto_play_tasks[gid]`. -/
def cancelAutofillTask (st : CogState) (gid : Nat) : CogState :=
  { st with autoPlayTasks := fun g => if g = gid then none else st.autoPlayTasks g }

/-- `_clear_autofill_from_queue(gid)`: replaces `queues[gid]` by its
non-autofill elements in order (the early return on an empty deque
produces the same state). -/
def clearAutofillFromQueue (st : CogState) (gid : Nat) : CogState :=
  { st with queues := fun g => if g = gid then clearAutofillKept (st.queues gid) else st.queues g }

/-- Appending resolved tracks to `queues[gid]`, the enqueue step shared
by the `play` and `playlist` commands. -/
def enqueueTracks (st : CogState) (gid : Nat) (ts : List Track) : CogState :=
  { st with queues := fun g => if g = gid then st.queues gid ++ ts else st.queues g }

/-- The cancel-and-purge step the `play` command performs before
enqueuing, followed by appending the human-requested tracks. -/
def playCancelPurgeEnqueue (st : CogState) (gid : Nat) (ts : List Track) : CogState :=
  enqueueTracks (clearAutofillFromQueue (cancelAutofillTask st gid) gid) gid ts

/-- The state effects of a successful `play_next(ctx)` pass (voice
connected, audio source opened): pop the front of `queues[gid]`,
increment `_song_index[gid]`, set `current_song` / `song_start_time`,
append the posted now-playing entry to `_np_track[gid]` and prune it via
`_cleanup_np_autofill`. On an empty queue it returns immediately. -/
def playNextStep (st : CogState) (gid : Nat) (now msgId chId : Nat) : CogState :=
  match st.queues gid with
  | [] => st
  | song :: rest =>
    let newIdx := st.songIndex gid + 1
    let entry : NpEntry := ⟨msgId, chId, newIdx, song.isAutofill⟩
    { st with
      queues := fun g => if g = gid then rest else st.queues g
      songIndex := fun g => if g = gid then newIdx else st.songIndex g
      currentSong := some song
      songStartTime := some now
      npTrack := fun g =>
        if g = gid then cleanupNpAutofill st.retention newIdx (st.npTrack gid ++ [entry])
        else st.npTrack g }

/-- The state effects of the `stop` command: clear `queues[gid]`, cancel
the pending autofill task and purge autofill (a no-op on the cleared
queue), reset `current_song` / `song_start_time`, then reschedule
autofill when the guild is eligible (`_is_autofill_enabled`). -/
def stopStep (st : CogState) (gid : Nat) (eligible : Bool) : CogState :=
  { st with
    queues := fun g => if g = gid then [] else st.queues g
    autoPlayTasks := fun g =>
      if g = gid then (if eligible then some () else none) else st.autoPlayTasks g
    currentSong := none
    songStartTime := none }

/-- `_pick_song_from_context(ctx, None)`: what a guild observes as the
relevant song — the shared `current_song` if set, else the front of that
guild's queue. -/
def pickSongNowPlaying (st : CogState) (gid : Nat) : Option Track :=
  match st.currentSong with
  | some c => some c
  | none =>
    match st.queues gid with
    | [] => none
    | t :: _ => some t

/-! ## Displacing shuffle: `shuffle_displacing_first_inplace` -/

/-- The in-place swap `seq[i], seq[j] = seq[j], seq[i]` on a list; out of
range indices leave the list unchanged (the source only calls it in
range). -/
def swapL {α : Type _} (l : List α) (i j : Nat) : List α :=
  match l[i]?, l[j]? with
  | some a, some b => (l.set i b).set j a
  | _, _ => l

/-- The loop `for i in range(i0, n): j = rnd.randrange(i, n); swap`, with
the drawn indices supplied as the oracle list `js` (one entry per
iteration). -/
def fisherYatesFrom {α : Type _} : Nat → List Nat → List α → List α
  | _, [], l => l
  | i, j :: js, l => fisherYatesFrom (i + 1) js (swapL l i j)

/-- `shuffle_displacing_first_inplace(seq)`: no-op for `len < 2`;
otherwise swap index 0 with the drawn `j0 = randrange(1, n)` and run the
Fisher-Yates loop over indices `1..n-1` with drawn indices `js`. -/
def shuffleDisplacingFirst {α : Type _} (l : List α) (j0 : Nat) (js : List Nat) : List α :=
  if l.length < 2 then l
  else fisherYatesFrom 1 js (swapL l 0 j0)

/-! ## Theorems -/

/-- C5: with the per-add limit enabled and the caller not privileged,
`_enforce_queue_add_limit` admits `n ≤ cap` unchanged with no notice and
caps `n > cap` at `cap` with the special wording for cap 3 and the
templated wording otherwise; a privileged caller or a disabled limit
admits everything with no notice. -/
theorem C5_enforce_queue_add_limit (limitOn : Bool) (cap n : Int) :
    enforceQueueAddLimit limitOn cap n true = (n, none)
    ∧ enforceQueueAddLimit false cap n false = (n, none)
    ∧ (n ≤ cap → enforceQueueAddLimit true cap n false = (n, none))
    ∧ (cap < n → enforceQueueAddLimit true cap n false
        = (cap, some (if cap = 3 then specialCapNotice else templatedCapNotice cap))) := by
  refine ⟨by simp [enforceQueueAddLimit], by simp [enforceQueueAddLimit], ?_, ?_⟩
  · intro h
    simp [enforceQueueAddLimit, h]
  · intro h
    have hnle : ¬ n ≤ cap := by omega
    unfold enforceQueueAddLimit
    rw [if_neg (by simp), if_neg hnle]
    split <;> simp_all

/-- C5 witness: the limit admits counts at cap 3 exactly as the claim's
examples say, with the special-cased wording when capping applies. -/
theorem C5_witness :
    enforceQueueAddLimit true 3 5 true = (5, none)
    ∧ enforceQueueAddLimit false 3 5 false = (5, none)
    ∧ enforceQueueAddLimit true 3 2 false = (2, none)
    ∧ enforceQueueAddLimit true 3 5 false = (3, some specialCapNotice) := by
  refine ⟨(C5_enforce_queue_add_limit true 3 5).1,
          (C5_enforce_queue_add_limit false 3 5).2.1,
          (C5_enforce_queue_add_limit true 3 2).2.2.1 (by decide), ?_⟩
  have h := (C5_enforce_queue_add_limit true 3 5).2.2.2 (by decide)
  simpa using h

/-- The non-filler count of `_count_user_queued` is the number of
non-autofill queued tracks whose `requester_id` matches. -/
theorem countUserQueued_eq_filter (q : List Track) (uid : Int) :
    countUserQueued q uid false
      = (q.filter (fun t => !t.isAutofill && decide (t.requesterId = some uid))).length := by
  induction q with
  | nil => rfl
  | cons t rest ih =>
    by_cases ha : t.isAutofill
    · simp [countUserQueued, ha, ih]
    · by_cases hr : t.requesterId = some uid <;>
        simp [countUserQueued, ha, hr, ih]

/-- C6: `_user_slots_remaining` equals `max(0, maxPerUser - k)` where `k`
counts only non-autofill queued tracks with a matching `requester_id`,
and appending autofill-tagged tracks (whatever their requester id) never
changes the remaining slots. -/
theorem C6_user_slots_remaining (q extra : List Track) (uid maxU : Int)
    (hextra : ∀ t ∈ extra, t.isAutofill = true) :
    userSlotsRemaining q uid maxU
      = max 0 (maxU - ((q.filter (fun t => !t.isAutofill && decide (t.requesterId = some uid))).length : Int))
    ∧ userSlotsRemaining (q ++ extra) uid maxU = userSlotsRemaining q uid maxU := by
  have hnil : extra.filter (fun t => !t.isAutofill && decide (t.requesterId = some uid)) = [] := by
    rw [List.filter_eq_nil_iff]
    intro t ht
    simp [hextra t ht]
  constructor
  · rw [userSlotsRemaining, countUserQueued_eq_filter]
  · rw [userSlotsRemaining, userSlotsRemaining,
      countUserQueued_eq_filter, countUserQueued_eq_filter, List.filter_append, hnil]
    simp

/-- C6 witness: a requester with cap 3 and three matching non-autofill
tracks queued has zero slots left, and two extra autofill tracks with
the same requester id change nothing. -/
theorem C6_witness :
    userSlotsRemaining [⟨some 100, some 7, false⟩, ⟨none, some 7, false⟩, ⟨some 90, some 7, false⟩] 7 3
      = max 0 (3 - (([⟨some 100, some 7, false⟩, ⟨none, some 7, false⟩, ⟨some 90, some 7, false⟩] :
            List Track).filter (fun t => !t.isAutofill && decide (t.requesterId = some 7))).length)
    ∧ userSlotsRemaining
        ([⟨some 100, some 7, false⟩, ⟨none, some 7, false⟩, ⟨some 90, some 7, false⟩]
          ++ [⟨some 80, some 7, true⟩, ⟨some 70, some 7, true⟩]) 7 3
      = userSlotsRemaining [⟨some 100, some 7, false⟩, ⟨none, some 7, false⟩, ⟨some 90, some 7, false⟩] 7 3
    ∧ userSlotsRemaining
        ([⟨some 100, some 7, false⟩, ⟨none, some 7, false⟩, ⟨some 90, some 7, false⟩]
          ++ [⟨some 80, some 7, true⟩, ⟨some 70, some 7, true⟩]) 7 3 = 0 := by
  have h := C6_user_slots_remaining
    [⟨some 100, some 7, false⟩, ⟨none, some 7, false⟩, ⟨some 90, some 7, false⟩]
    [⟨some 80, some 7, true⟩, ⟨some 70, some 7, true⟩] 7 3 (by decide)
  exact ⟨h.1, h.2, by decide⟩

/-- C8: `remove_from_queue` with a 1-based position outside `[1, len]`
reports the failure and performs no mutation: the queue is returned
exactly as it was and nothing is removed. -/
theorem C8_remove_out_of_range (q : List Track) (position : Int)
    (h : position < 1 ∨ (q.length : Int) < position) :
    removeFromQueue q position = (q, none) := by
  by_cases he : q.isEmpty
  · simp [removeFromQueue, he]
  · rw [removeFromQueue, if_neg (by simp [he]), if_pos h]

/-- C8 witness: removing position 5 from a one-element queue fails and
leaves the queue unchanged. -/
theorem C8_witness :
    ((5 : Int) < 1 ∨ (([⟨some 100, some 7, false⟩] : List Track).length : Int) < 5)
    ∧ removeFromQueue [⟨some 100, some 7, false⟩] 5 = ([⟨some 100, some 7, false⟩], none) :=
  ⟨by decide, C8_remove_out_of_range [⟨some 100, some 7, false⟩] 5 (by decide)⟩

/-- The kept component of `_purge_filler_from_queue` is the non-autofill
filter of the queue. -/
theorem purgeFiller_fst (q : List Track) :
    (purgeFillerFromQueue q).1 = q.filter (fun t => !t.isAutofill) := by
  induction q with
  | nil => rfl
  | cons t rest ih =>
    by_cases ha : t.isAutofill <;> simp [purgeFillerFromQueue, ha, ih]

/-- The removed count of `_purge_filler_from_queue` plus the kept length
is the original length. -/
theorem purgeFiller_count (q : List Track) :
    (purgeFillerFromQueue q).2 + ((purgeFillerFromQueue q).1).length = q.length := by
  induction q with
  | nil => rfl
  | cons t rest ih =>
    by_cases ha : t.isAutofill <;> simp [purgeFillerFromQueue, ha] <;> omega

/-- C10: both autofill purges keep exactly the non-autofill tracks, in
their original relative order (a sublist of the original queue, so no
reordering, duplication, or modification), and the reported removed
count accounts for every autofill track. -/
theorem C10_purge_keeps_non_autofill (q : List Track) :
    (purgeFillerFromQueue q).1 = q.filter (fun t => !t.isAutofill)
    ∧ clearAutofillKept q = (purgeFillerFromQueue q).1
    ∧ ((purgeFillerFromQueue q).1).Sublist q
    ∧ (purgeFillerFromQueue q).2 + ((purgeFillerFromQueue q).1).length = q.length
    ∧ ((purgeFillerFromQueue q).1).countP (fun t => t.isAutofill) = 0 := by
  have h1 := purgeFiller_fst q
  refine ⟨h1, by rw [h1]; rfl, ?_, purgeFiller_count q, ?_⟩
  · rw [h1]
    exact List.filter_sublist q
  · rw [h1, List.countP_filter]
    simp

/-- The keep-loop of `_cleanup_np_autofill` filters out exactly the
autofill entries at least `retention` songs behind the current index. -/
theorem cleanupNpKeep_eq_filter (r : Int) (cur : Nat) (entries : List NpEntry) :
    cleanupNpKeep r cur entries
      = entries.filter
          (fun e => !(e.isAutofill && decide ((cur : Int) - (e.songIndex : Int) ≥ r))) := by
  induction entries with
  | nil => rfl
  | cons e rest ih =>
    by_cases hc : (e.isAutofill && decide ((cur : Int) - (e.songIndex : Int) ≥ r)) = true
    · simp only [cleanupNpKeep]
      rw [if_pos hc, ih, List.filter_cons, if_neg (by simp [hc])]
    · simp only [cleanupNpKeep]
      rw [if_neg hc, ih, List.filter_cons, if_pos (by simp [hc])]

/-- C3 counterexample: with the default retention window 2 and current
song index 3, the source prunes an autofill entry posted at index 1
(exactly 2 behind), while the claim's "more than N behind" rule would
keep it. -/
theorem C3_counterexample :
    cleanupNpAutofill 2 3 [⟨1, 1, 1, true⟩]
      ≠ cleanupNpClaimed 2 3 [⟨1, 1, 1, true⟩]
    ∧ cleanupNpAutofill 2 3 [⟨1, 1, 1, true⟩] = []
    ∧ cleanupNpClaimed 2 3 [⟨1, 1, 1, true⟩] = [⟨1, 1, 1, true⟩] := by
  refine ⟨?_, by decide, by decide⟩
  decide

/-- C3 (amended): with a positive retention window `N`, pruning deletes
exactly those entries that are autofill-tagged and whose posted song
index is at least `N` (rather than more than `N`) behind the current
song index; non-autofill entries are never pruned (their count is
preserved). With a non-positive window nothing is pruned. -/
theorem C3_cleanup_np_prunes (r : Int) (cur : Nat) (entries : List NpEntry)
    (h : 0 < r) :
    cleanupNpAutofill r cur entries
      = entries.filter
          (fun e => !(e.isAutofill && decide ((cur : Int) - (e.songIndex : Int) ≥ r)))
    ∧ (cleanupNpAutofill r cur entries).countP (fun e => !e.isAutofill)
      = entries.countP (fun e => !e.isAutofill) := by
  have hr : ¬ r ≤ 0 := by omega
  have h1 : cleanupNpAutofill r cur entries
      = entries.filter
          (fun e => !(e.isAutofill && decide ((cur : Int) - (e.songIndex : Int) ≥ r))) := by
    rw [cleanupNpAutofill, if_neg hr]
    exact cleanupNpKeep_eq_filter r cur entries
  refine ⟨h1, ?_⟩
  rw [h1, List.countP_filter]
  apply List.countP_congr
  intro e _
  cases ha : e.isAutofill <;> simp [ha]

/-- C3 witness: retention 2, current index 3; the autofill entry posted
at index 1 is pruned and the non-autofill entry posted at index 0 stays. -/
theorem C3_witness :
    (0 : Int) < 2
    ∧ (cleanupNpAutofill 2 3 [⟨1, 1, 1, true⟩, ⟨2, 1, 0, false⟩]
        = ([⟨1, 1, 1, true⟩, ⟨2, 1, 0, false⟩] : List NpEntry).filter
            (fun e => !(e.isAutofill && decide ((3 : Int) - (e.songIndex : Int) ≥ 2)))
      ∧ (cleanupNpAutofill 2 3 [⟨1, 1, 1, true⟩, ⟨2, 1, 0, false⟩]).countP (fun e => !e.isAutofill)
        = ([⟨1, 1, 1, true⟩, ⟨2, 1, 0, false⟩] : List NpEntry).countP (fun e => !e.isAutofill)) :=
  ⟨by decide, C3_cleanup_np_prunes 2 3 [⟨1, 1, 1, true⟩, ⟨2, 1, 0, false⟩] (by decide)⟩

/-- Folding the estimate loop over a list of tracks adds the known
durations to the accumulator and or-combines the two flags with whether
the list holds an unknown (resp. known) duration. -/
theorem foldl_etaStep_spec (ts : List Track) (a : EtaAcc) :
    ts.foldl etaStep a
      = ⟨a.eta + knownDurSum ts,
         a.hadUnknown || ts.any trackUnknown,
         a.hadKnown || ts.any (fun t => !trackUnknown t)⟩ := by
  induction ts generalizing a with
  | nil => simp [knownDurSum]
  | cons t rest ih =>
    rw [List.foldl_cons, ih]
    cases hd : durationToSeconds t.duration with
    | none =>
      simp [etaStep, hd, trackUnknown, knownDurSum, Bool.or_assoc]
    | some td =>
      simp [etaStep, hd, trackUnknown, knownDurSum, Bool.or_assoc]
      omega

/-- C1 (amended): the estimate's first component is unknown exactly when
the relevant tracks (the counted current track plus those strictly ahead
of the target position) contain an unknown duration and no known one;
otherwise it is the sum of the known components — in particular the
exact sum `max(0, currentDuration - elapsed)` plus the durations ahead
when every duration is known — and the second component flags whether
any unknown duration was present. -/
theorem C1_estimate_eta_characterization (cur : Option Track) (startTime : Option Nat)
    (q : List Track) (now : Nat) (position : Nat) :
    estimateEtaSeconds cur startTime q now position
      = (if (etaRelevantTracks cur startTime q position).any trackUnknown
            && !((etaRelevantTracks cur startTime q position).any (fun t => !trackUnknown t))
         then none
         else some (etaKnownTotal cur startTime q now position),
         (etaRelevantTracks cur startTime q position).any trackUnknown) := by
  cases cur with
  | none =>
    simp only [estimateEtaSeconds, etaRelevantTracks, etaKnownTotal,
      foldl_etaStep_spec, List.nil_append]
    cases hU : (q.take (position - 1)).any trackUnknown <;>
      cases hK : (q.take (position - 1)).any (fun t => !trackUnknown t) <;>
        simp
  | some c =>
    cases startTime with
    | none =>
      simp only [estimateEtaSeconds, etaRelevantTracks, etaKnownTotal,
        foldl_etaStep_spec, List.nil_append]
      cases hU : (q.take (position - 1)).any trackUnknown <;>
        cases hK : (q.take (position - 1)).any (fun t => !trackUnknown t) <;>
          simp
    | some st =>
      cases hd : durationToSeconds c.duration with
      | none =>
        simp only [estimateEtaSeconds, etaRelevantTracks, etaKnownTotal, hd,
          foldl_etaStep_spec, List.singleton_append, List.any_cons,
          trackUnknown, Option.isNone_none]
        cases hK : (q.take (position - 1)).any (fun t => !(durationToSeconds t.duration).isNone) <;>
          simp
      | some cd =>
        simp only [estimateEtaSeconds, etaRelevantTracks, etaKnownTotal, hd,
          foldl_etaStep_spec, List.singleton_append, List.any_cons,
          trackUnknown, Option.isNone_some]
        cases hU : (q.take (position - 1)).any (fun t => (durationToSeconds t.duration).isNone) <;>
          simp

/-- C1 counterexample: with an unknown-duration current track and one
known 100-second track ahead, the relevant tracks contain an unknown
duration, yet the estimate for position 2 is `100`, not unknown (only
the flag is set). -/
theorem C1_counterexample :
    (etaRelevantTracks (some ⟨none, none, false⟩) (some 10)
        [⟨some 100, none, false⟩] 2).any trackUnknown = true
    ∧ estimateEtaSeconds (some ⟨none, none, false⟩) (some 10)
        [⟨some 100, none, false⟩] 60 2 = (some 100, true)
    ∧ (estimateEtaSeconds (some ⟨none, none, false⟩) (some 10)
        [⟨some 100, none, false⟩] 60 2).1 ≠ none := by
  decide

/-- An autofill-tagged track used as a concrete state witness. -/
def trackFiller : Track := ⟨some 90, none, true⟩

/-- A human-requested track used as a concrete state witness. -/
def trackHuman : Track := ⟨some 100, some 7, false⟩

/-- A concrete cog state: guild 1 has a queue and a pending autofill
task, guild 2 is untouched, nothing is playing. -/
def sampleState : CogState where
  queues := fun g => if g = 1 then [trackFiller, trackHuman] else []
  currentSong := none
  songStartTime := none
  songIndex := fun _ => 0
  npTrack := fun _ => []
  autoPlayTasks := fun g => if g = 1 then some () else none
  retention := 2

/-- C2 (amended): the per-guild keyed collections are isolated — a
`play_next` pass, a `stop`, or an enqueue for guild A leaves guild B's
queue, song index, now-playing log and pending autofill task unchanged
(and the ETA estimator is a read-only function of the state). The shared
`current_song` / `song_start_time` cog attributes are the exception,
exhibited by the separate counterexample. -/
theorem C2_per_guild_isolation (st : CogState) (gid gidB : Nat) (h : gidB ≠ gid)
    (now msgId chId : Nat) (ts : List Track) (eligible : Bool) :
    ((playNextStep st gid now msgId chId).queues gidB = st.queues gidB
      ∧ (playNextStep st gid now msgId chId).songIndex gidB = st.songIndex gidB
      ∧ (playNextStep st gid now msgId chId).npTrack gidB = st.npTrack gidB
      ∧ (playNextStep st gid now msgId chId).autoPlayTasks gidB = st.autoPlayTasks gidB)
    ∧ ((stopStep st gid eligible).queues gidB = st.queues gidB
      ∧ (stopStep st gid eligible).songIndex gidB = st.songIndex gidB
      ∧ (stopStep st gid eligible).npTrack gidB = st.npTrack gidB
      ∧ (stopStep st gid eligible).autoPlayTasks gidB = st.autoPlayTasks gidB)
    ∧ ((enqueueTracks st gid ts).queues gidB = st.queues gidB
      ∧ (enqueueTracks st gid ts).songIndex gidB = st.songIndex gidB
      ∧ (enqueueTracks st gid ts).npTrack gidB = st.npTrack gidB
      ∧ (enqueueTracks st gid ts).autoPlayTasks gidB = st.autoPlayTasks gidB) := by
  refine ⟨?_, ?_, ?_⟩
  · cases hq : st.queues gid <;> simp [playNextStep, hq, h]
  · simp [stopStep, h]
  · simp [enqueueTracks, h]

/-- C2 witness: the isolation theorem applied to the concrete state, for
guild A = 1 and guild B = 2. -/
theorem C2_witness :
    ((playNextStep sampleState 1 50 9 9).queues 2 = sampleState.queues 2
      ∧ (playNextStep sampleState 1 50 9 9).songIndex 2 = sampleState.songIndex 2
      ∧ (playNextStep sampleState 1 50 9 9).npTrack 2 = sampleState.npTrack 2
      ∧ (playNextStep sampleState 1 50 9 9).autoPlayTasks 2 = sampleState.autoPlayTasks 2)
    ∧ ((stopStep sampleState 1 true).queues 2 = sampleState.queues 2
      ∧ (stopStep sampleState 1 true).songIndex 2 = sampleState.songIndex 2
      ∧ (stopStep sampleState 1 true).npTrack 2 = sampleState.npTrack 2
      ∧ (stopStep sampleState 1 true).autoPlayTasks 2 = sampleState.autoPlayTasks 2)
    ∧ ((enqueueTracks sampleState 1 [trackHuman]).queues 2 = sampleState.queues 2
      ∧ (enqueueTracks sampleState 1 [trackHuman]).songIndex 2 = sampleState.songIndex 2
      ∧ (enqueueTracks sampleState 1 [trackHuman]).npTrack 2 = sampleState.npTrack 2
      ∧ (enqueueTracks sampleState 1 [trackHuman]).autoPlayTasks 2 = sampleState.autoPlayTasks 2) :=
  C2_per_guild_isolation sampleState 1 2 (by decide) 50 9 9 [trackHuman] true

/-- C2 counterexample: `current_song` is a single attribute on the cog,
so a `play_next` for guild 1 changes what guild 2 observes as currently
playing (from nothing to the track started for guild 1). -/
theorem C2_counterexample :
    pickSongNowPlaying (playNextStep sampleState 1 50 9 9) 2
      ≠ pickSongNowPlaying sampleState 2 := by
  decide

/-- C7: immediately after the cancel-and-purge step every human command
performs, the guild's pending autofill task handle is `None` and its
queue holds no autofill-tagged track; enqueuing the human-requested
(non-autofill) tracks on top of it preserves both facts. -/
theorem C7_cancel_purge (st : CogState) (gid : Nat) (ts : List Track)
    (hts : ∀ t ∈ ts, t.isAutofill = false) :
    ((clearAutofillFromQueue (cancelAutofillTask st gid) gid).autoPlayTasks gid = none
      ∧ ((clearAutofillFromQueue (cancelAutofillTask st gid) gid).queues gid).countP
          (fun t => t.isAutofill) = 0)
    ∧ ((playCancelPurgeEnqueue st gid ts).autoPlayTasks gid = none
      ∧ ((playCancelPurgeEnqueue st gid ts).queues gid).countP
          (fun t => t.isAutofill) = 0) := by
  have hkept : (clearAutofillKept (st.queues gid)).countP (fun t => t.isAutofill) = 0 := by
    rw [clearAutofillKept, List.countP_filter]
    simp
  have hts0 : ts.countP (fun t => t.isAutofill) = 0 := by
    rw [List.countP_eq_zero]
    intro t ht
    simp [hts t ht]
  refine ⟨⟨by simp [clearAutofillFromQueue, cancelAutofillTask], ?_⟩,
          ⟨by simp [playCancelPurgeEnqueue, enqueueTracks, clearAutofillFromQueue, cancelAutofillTask], ?_⟩⟩
  · simpa [clearAutofillFromQueue, cancelAutofillTask] using hkept
  · simp [playCancelPurgeEnqueue, enqueueTracks, clearAutofillFromQueue,
      cancelAutofillTask, List.countP_append, hkept, hts0]

/-- C7 witness: cancel-and-purge on the concrete state (autofill queued
and a pending autofill task for guild 1) followed by a human enqueue. -/
theorem C7_witness :
    (((clearAutofillFromQueue (cancelAutofillTask sampleState 1) 1).autoPlayTasks 1 = none
      ∧ ((clearAutofillFromQueue (cancelAutofillTask sampleState 1) 1).queues 1).countP
          (fun t => t.isAutofill) = 0)
    ∧ ((playCancelPurgeEnqueue sampleState 1 [trackHuman]).autoPlayTasks 1 = none
      ∧ ((playCancelPurgeEnqueue sampleState 1 [trackHuman]).queues 1).countP
          (fun t => t.isAutofill) = 0)) :=
  C7_cancel_purge sampleState 1 [trackHuman] (by decide)

/-- Setting a position to the value it already holds is the identity. -/
theorem listSet_self {α : Type _} (l : List α) (i : Nat) (a : α) (h : l[i]? = some a) :
    l.set i a = l := by
  have hlen : i < l.length := by
    rcases List.getElem?_eq_some.mp h with ⟨hl, _⟩
    exact hl
  apply List.ext_getElem?
  intro n
  rw [List.getElem?_set]
  by_cases hin : i = n
  · subst hin
    rw [if_pos rfl, if_pos hlen, h]
  · rw [if_neg hin]

/-- Moving the element at position `k` to the front while writing `x`
into position `k` permutes `x :: t`. -/
theorem cons_set_perm {α : Type _} (t : List α) (x : α) (k : Nat) (a : α)
    (hk : t[k]? = some a) :
    (a :: t.set k x).Perm (x :: t) := by
  induction t generalizing k with
  | nil => simp at hk
  | cons y s ih =>
    cases k with
    | zero =>
      have hy : y = a := by simpa using hk
      subst hy
      simp only [List.set_cons_zero]
      exact List.Perm.swap x y s
    | succ k' =>
      have hk' : s[k']? = some a := by simpa using hk
      simp only [List.set_cons_succ]
      exact ((List.Perm.swap y _ _).trans ((ih k' hk').cons y)).trans (List.Perm.swap x y s)

/-- Writing each of two positions' values into the other permutes the
list (the ordered case `i < j`). -/
theorem set_set_perm {α : Type _} (l : List α) (i j : Nat) (a b : α) (hij : i < j)
    (ha : l[i]? = some a) (hb : l[j]? = some b) :
    ((l.set i b).set j a).Perm l := by
  induction l generalizing i j with
  | nil => simp at ha
  | cons y s ih =>
    cases i with
    | zero =>
      cases j with
      | zero => omega
      | succ j' =>
        have hy : y = a := by simpa using ha
        subst hy
        have hb' : s[j']? = some b := by simpa using hb
        simp only [List.set_cons_zero, List.set_cons_succ]
        exact cons_set_perm s y j' b hb'
    | succ i' =>
      cases j with
      | zero => omega
      | succ j' =>
        have hij' : i' < j' := by omega
        have ha' : s[i']? = some a := by simpa using ha
        have hb' : s[j']? = some b := by simpa using hb
        simp only [List.set_cons_succ]
        exact (ih i' j' hij' ha' hb').cons y

/-- The swap `seq[i], seq[j] = seq[j], seq[i]` permutes the list. -/
theorem swapL_perm {α : Type _} (l : List α) (i j : Nat) : (swapL l i j).Perm l := by
  unfold swapL
  cases hi : l[i]? with
  | none => cases hj : l[j]? <;> exact List.Perm.refl l
  | some a =>
    cases hj : l[j]? with
    | none => exact List.Perm.refl l
    | some b =>
      rcases Nat.lt_trichotomy i j with h | h | h
      · exact set_set_perm l i j a b h hi hj
      · subst h
        have hab : a = b := by
          rw [hi] at hj
          exact Option.some.inj hj
        subst hab
        show ((l.set i a).set i a).Perm l
        rw [List.set_set, listSet_self l i a hi]
      · show ((l.set i b).set j a).Perm l
        rw [List.set_comm _ _ l (Nat.ne_of_gt h)]
        exact set_set_perm l j i b a h hj hi

/-- The Fisher-Yates loop permutes the list, whatever indices were
drawn. -/
theorem fisherYatesFrom_perm {α : Type _} (js : List Nat) (i : Nat) (l : List α) :
    (fisherYatesFrom i js l).Perm l := by
  induction js generalizing i l with
  | nil => exact List.Perm.refl l
  | cons j rest ih => exact (ih (i + 1) (swapL l i j)).trans (swapL_perm l i j)

/-- A swap between two nonzero positions does not touch position 0. -/
theorem swapL_getElem?_zero {α : Type _} (l : List α) (i j : Nat)
    (hi : i ≠ 0) (hj : j ≠ 0) :
    (swapL l i j)[0]? = l[0]? := by
  unfold swapL
  cases hA : l[i]? with
  | none => cases hB : l[j]? <;> rfl
  | some a =>
    cases hB : l[j]? with
    | none => rfl
    | some b => rw [List.getElem?_set_ne hj, List.getElem?_set_ne hi]

/-- The loop over positions `i ≥ 1` with nonzero drawn indices never
touches position 0. -/
theorem fisherYatesFrom_getElem?_zero {α : Type _} (js : List Nat) (i : Nat) (l : List α)
    (hi : i ≠ 0) (hjs : ∀ j ∈ js, j ≠ 0) :
    (fisherYatesFrom i js l)[0]? = l[0]? := by
  induction js generalizing i l with
  | nil => rfl
  | cons j rest ih =>
    have h1 : (fisherYatesFrom (i + 1) rest (swapL l i j))[0]? = (swapL l i j)[0]? :=
      ih (i + 1) (swapL l i j) (by omega) (fun j' hj' => hjs j' (List.mem_cons_of_mem _ hj'))
    exact h1.trans (swapL_getElem?_zero l i j hi (hjs j (List.mem_cons_self _ _)))

/-- After swapping positions 0 and `j0`, position 0 holds the element
that was at position `j0`. -/
theorem swapL_zero_getElem? {α : Type _} (l : List α) (j0 : Nat)
    (h0 : 0 < l.length) (hj : j0 < l.length) :
    (swapL l 0 j0)[0]? = l[j0]? := by
  unfold swapL
  cases hA : l[0]? with
  | none => exact absurd (List.getElem?_eq_none_iff.mp hA) (by omega)
  | some a =>
    cases hB : l[j0]? with
    | none => exact absurd (List.getElem?_eq_none_iff.mp hB) (by omega)
    | some b =>
      show ((l.set 0 b).set j0 a)[0]? = some b
      by_cases hj0 : j0 = 0
      · subst hj0
        have hab : a = b := by
          rw [hA] at hB
          exact Option.some.inj hB
        subst hab
        rw [List.set_set, List.getElem?_set_self h0]
      · rw [List.getElem?_set_ne hj0, List.getElem?_set_self h0]

/-- C4: `shuffle_displacing_first_inplace` is the identity on sequences
shorter than 2; on longer sequences, with the drawn indices in the
ranges `randrange` is called with (`j0` uniform in `[1, n-1]`, then the
standard Fisher-Yates draws over `[1, n-1]`), it produces a permutation
of the input whose position 0 receives the element from position
`j0 ≥ 1` — so for duplicate-free input the original first element never
stays at index 0. -/
theorem C4_shuffle_displacing_first {α : Type _} (l : List α) (j0 : Nat) (js : List Nat) :
    (l.length < 2 → shuffleDisplacingFirst l j0 js = l)
    ∧ (2 ≤ l.length → 1 ≤ j0 → j0 < l.length → (∀ j ∈ js, 1 ≤ j) →
        (shuffleDisplacingFirst l j0 js).Perm l
        ∧ (shuffleDisplacingFirst l j0 js)[0]? = l[j0]?
        ∧ (l.Nodup → (shuffleDisplacingFirst l j0 js)[0]? ≠ l[0]?)) := by
  constructor
  · intro h
    rw [shuffleDisplacingFirst, if_pos h]
  · intro h2 hj0l hj0u hjs
    have hres : shuffleDisplacingFirst l j0 js = fisherYatesFrom 1 js (swapL l 0 j0) := by
      rw [shuffleDisplacingFirst, if_neg (by omega)]
    have hzero : (shuffleDisplacingFirst l j0 js)[0]? = l[j0]? := by
      rw [hres,
        fisherYatesFrom_getElem?_zero js 1 (swapL l 0 j0) (by omega)
          (fun j hj => by have := hjs j hj; omega)]
      exact swapL_zero_getElem? l j0 (by omega) hj0u
    refine ⟨?_, hzero, ?_⟩
    · rw [hres]
      exact (fisherYatesFrom_perm js 1 (swapL l 0 j0)).trans (swapL_perm l 0 j0)
    · intro hnd hcontra
      rw [hzero] at hcontra
      have := List.getElem?_inj hj0u hnd hcontra
      omega

/-- C4 witness: a singleton is untouched; on `[10, 20, 30]` with drawn
indices `j0 = 2`, then `1, 2`, the result is a permutation whose head
comes from position 2 and differs from the original head. -/
theorem C4_witness :
    shuffleDisplacingFirst ([5] : List Nat) 1 [] = [5]
    ∧ (shuffleDisplacingFirst ([10, 20, 30] : List Nat) 2 [1, 2]).Perm [10, 20, 30]
    ∧ (shuffleDisplacingFirst ([10, 20, 30] : List Nat) 2 [1, 2])[0]? = some 30
    ∧ (shuffleDisplacingFirst ([10, 20, 30] : List Nat) 2 [1, 2])[0]? ≠ some 10 := by
  have h := (C4_shuffle_displacing_first ([10, 20, 30] : List Nat) 2 [1, 2]).2
    (by decide) (by decide) (by decide) (by decide)
  refine ⟨(C4_shuffle_displacing_first ([5] : List Nat) 1 []).1 (by decide), h.1, ?_, ?_⟩
  · simpa using h.2.1
  · simpa using h.2.2 (by decide)

end SunoRadio
